import Mathlib

/-!
Verification of the block discovery / resource loading / custom-element
upgrade pipeline of `src/scripts/aem.js`.

The DOM is shallowly embedded as a heap of nodes addressed by numeric ids
(`DomState`): this mirrors JavaScript's object identity for DOM nodes, and in
particular lets a detached subtree survive (a `querySelectorAll` snapshot keeps
references to nodes even after they are replaced in the document, which the
source code relies on).  DOM mutation is explicit state passing.  `innerHTML`
assignment is modelled as a deep structural copy with fresh ids, which is the
observable effect of serialising a well-formed subtree and re-parsing it.
`innerText` is modelled as the concatenation of the text descendants.
Promise-based code is modelled by the calls its executors perform and the
outcomes they produce; `async` control flow that joins all its awaits is
linearised into event traces.
-/

namespace AemWc

/-- A DOM node payload: an element with a tag and attribute list, or a text
node.  Tags are stored lower-case, as `document.createElement` lower-cases
the tag names of elements in an HTML document. -/
inductive NodeKind where
  | element (tag : String) (attrs : List (String × String))
  | text (s : String)
deriving DecidableEq, Repr

/-- One heap cell: the node payload, its parent pointer and the ids of its
child nodes in order. -/
structure NodeRec where
  kind : NodeKind
  parent : Option Nat
  children : List Nat
deriving DecidableEq, Repr

/-- The DOM heap: an association list from node ids to node records, the next
fresh id, and the id of the document root. Detached nodes simply stay in the
heap with no parent. -/
structure DomState where
  nodes : List (Nat × NodeRec)
  nextId : Nat
  root : Nat
deriving DecidableEq, Repr

def getNode (st : DomState) (id : Nat) : Option NodeRec :=
  (st.nodes.find? (fun p => p.1 == id)).map (·.2)

def setNode (st : DomState) (id : Nat) (r : NodeRec) : DomState :=
  { st with nodes := st.nodes.map (fun p => if p.1 == id then (id, r) else p) }

/-- Allocate a fresh node; returns the new state and the new node's id. -/
def addNode (st : DomState) (r : NodeRec) : DomState × Nat :=
  ({ st with nodes := st.nodes ++ [(st.nextId, r)], nextId := st.nextId + 1 },
   st.nextId)

/-- `getAttribute`: `none` models JavaScript `null` (attribute absent). -/
def getAttrOf (r : NodeRec) (name : String) : Option String :=
  match r.kind with
  | .element _ attrs => (attrs.find? (fun p => p.1 == name)).map (·.2)
  | .text _ => none

def isElem (r : NodeRec) : Bool :=
  match r.kind with
  | .element _ _ => true
  | .text _ => false

/-- The tag name of an element node (empty for text nodes, which never reach
the places that ask for a tag). -/
def tagKindOf (r : NodeRec) : String :=
  match r.kind with
  | .element t _ => t
  | .text _ => ""

def setAttrKind (k : NodeKind) (n v : String) : NodeKind :=
  match k with
  | .element t attrs =>
      .element t (if (attrs.find? (fun p => p.1 == n)).isSome
        then attrs.map (fun p => if p.1 == n then (n, v) else p)
        else attrs ++ [(n, v)])
  | .text s => .text s

/-- `setAttribute` (replaces an existing attribute, appends a new one). -/
def setAttr (st : DomState) (id : Nat) (n v : String) : DomState :=
  match getNode st id with
  | some r => setNode st id { r with kind := setAttrKind r.kind n v }
  | none => st

/-- The attribute `n` of the node at `id` in `st`, if both exist. -/
def attrAt (st : DomState) (id : Nat) (n : String) : Option String :=
  (getNode st id).bind (fun r => getAttrOf r n)

/-- ASCII lower-casing, modelling `String.prototype.toLowerCase` on the tag
and attribute material the loader manipulates. -/
def charLower (c : Char) : Char :=
  if 'A' ≤ c ∧ c ≤ 'Z' then Char.ofNat (c.toNat + 32) else c

def strToLower (s : String) : String := String.mk (s.toList.map charLower)

/-- `String.prototype.endsWith`. -/
def strEndsWith (s suffix : String) : Bool :=
  suffix.toList.isSuffixOf s.toList

/-- Split a character list at every separator, keeping empty pieces (the
semantics of JavaScript `split` with a one-character separator). -/
def splitCharsAux (p : Char → Bool) : List Char → List Char → List String
  | [], cur => [String.mk cur.reverse]
  | c :: rest, cur =>
    if p c then String.mk cur.reverse :: splitCharsAux p rest []
    else splitCharsAux p rest (c :: cur)

def strSplit (s : String) (p : Char → Bool) : List String :=
  splitCharsAux p s.toList []

/-- A generous amount of fuel for the structurally recursive tree walks below:
every walk over a well-formed document consumes at most a few units of fuel
per heap node. -/
def bigFuel (st : DomState) : Nat := st.nodes.length * 4 + 64

/-- Document-order (pre-order) traversal: a node, then its subtrees, then its
following siblings.  Fuel-bounded so that the recursion is structural. -/
def preorder : Nat → DomState → List Nat → List Nat
  | 0, _, _ => []
  | fuel + 1, st, ids =>
    match ids with
    | [] => []
    | id :: rest =>
      (match getNode st id with
       | none => []
       | some r => id :: preorder fuel st r.children)
      ++ preorder fuel st rest

/-- All ids reachable from the document root, in document order. -/
def docOrder (st : DomState) : List Nat := preorder (bigFuel st) st [st.root]

/-- `document.querySelectorAll` for a predicate on node records: a static
snapshot, in document order. -/
def queryAll (st : DomState) (p : NodeRec → Bool) : List Nat :=
  (docOrder st).filter (fun id =>
    match getNode st id with
    | some r => p r
    | none => false)

/-- `element.querySelectorAll`: the proper descendants of `id`, in document
order, that satisfy `p`. -/
def queryDesc (st : DomState) (id : Nat) (p : NodeRec → Bool) : List Nat :=
  ((preorder (bigFuel st) st [id]).drop 1).filter (fun i =>
    match getNode st i with
    | some r => p r
    | none => false)

/-- `element.children`: the element children (text nodes skipped). -/
def elemChildren (st : DomState) (id : Nat) : List Nat :=
  match getNode st id with
  | some r => r.children.filter (fun c =>
      match getNode st c with
      | some cr => isElem cr
      | none => false)
  | none => []

/-- `innerText`, modelled as the concatenation of the text descendants in
document order (the layout-driven refinements of `innerText` do not arise for
the markup the loader reads keys and paths from). -/
def innerTextOf (st : DomState) (id : Nat) : String :=
  ((preorder (bigFuel st) st [id]).filterMap (fun i =>
    match getNode st i with
    | some r =>
      match r.kind with
      | .text s => some s
      | .element _ _ => none
    | none => none)).foldl (· ++ ·) ""

def serializeAttrs : List (String × String) → String
  | [] => ""
  | (n, v) :: rest => " " ++ n ++ "=\"" ++ v ++ "\"" ++ serializeAttrs rest

/-- HTML serialisation of a list of nodes (the body of `innerHTML` reads). -/
def serializeNodes : Nat → DomState → List Nat → String
  | 0, _, _ => ""
  | fuel + 1, st, ids =>
    match ids with
    | [] => ""
    | id :: rest =>
      (match getNode st id with
       | none => ""
       | some r =>
         match r.kind with
         | .text s => s
         | .element t attrs =>
             "<" ++ t ++ serializeAttrs attrs ++ ">"
               ++ serializeNodes fuel st r.children ++ "</" ++ t ++ ">")
      ++ serializeNodes fuel st rest

/-- `element.innerHTML` (read). -/
def innerHTMLOf (st : DomState) (id : Nat) : String :=
  match getNode st id with
  | some r => serializeNodes (bigFuel st) st r.children
  | none => ""

/-- Deep structural copy of a list of subtrees with fresh ids, attached under
`parent`.  This is the observable effect of `dst.innerHTML = src.innerHTML`
(serialise, then re-parse): attributes and text are preserved, node identity
is not.  Returns the new state and the ids of the copied roots. -/
def copyNodes : Nat → DomState → Option Nat → List Nat → DomState × List Nat
  | 0, st, _, _ => (st, [])
  | fuel + 1, st, parent, ids =>
    match ids with
    | [] => (st, [])
    | id :: rest =>
      match getNode st id with
      | none => copyNodes fuel st parent rest
      | some r =>
        let alloc := addNode st { kind := r.kind, parent := parent, children := [] }
        let copied := copyNodes fuel alloc.1 (some alloc.2) r.children
        let filled := setNode copied.1 alloc.2
          { kind := r.kind, parent := parent, children := copied.2 }
        let remaining := copyNodes fuel filled parent rest
        (remaining.1, alloc.2 :: remaining.2)

/-- `parent.replaceChild(newChild, oldChild)` for `oldChild`'s parent: swap
the id in the parent's child list; the old child is detached but keeps its own
subtree. -/
def replaceChild (st : DomState) (oldId newId : Nat) : DomState :=
  match getNode st oldId with
  | none => st
  | some r =>
    match r.parent with
    | none => st
    | some pid =>
      let st1 := match getNode st pid with
        | some pr => setNode st pid
            { pr with children := pr.children.map (fun c => if c == oldId then newId else c) }
        | none => st
      let st2 := match getNode st1 newId with
        | some nr => setNode st1 newId { nr with parent := some pid }
        | none => st1
      match getNode st2 oldId with
      | some r2 => setNode st2 oldId { r2 with parent := none }
      | none => st2

/-- `element.append(child)` for an already-allocated (detached) child. -/
def appendChild (st : DomState) (pid cid : Nat) : DomState :=
  let st1 := match getNode st pid with
    | some pr => setNode st pid { pr with children := pr.children ++ [cid] }
    | none => st
  match getNode st1 cid with
  | some cr => setNode st1 cid { cr with parent := some pid }
  | none => st1

/-- `dst.innerHTML = src.innerHTML`: detach `dst`'s current children and
replace them by deep copies of `src`'s children. -/
def setInnerHTMLFromNode (st : DomState) (dst src : Nat) : DomState :=
  match getNode st dst, getNode st src with
  | some rd, some rs =>
    let st1 := rd.children.foldl (fun s c =>
      match getNode s c with
      | some cr => setNode s c { cr with parent := none }
      | none => s) st
    let copied := copyNodes (bigFuel st1) st1 (some dst) rs.children
    match getNode copied.1 dst with
    | some rd1 => setNode copied.1 dst { rd1 with children := copied.2 }
    | none => copied.1
  | _, _ => st

/-- The class list of an element: its `class` attribute split on whitespace,
empty tokens dropped. -/
def classListOf (r : NodeRec) : List String :=
  ((strSplit ((getAttrOf r "class").getD "")
    (fun c => c == ' ' || c == '\t' || c == '\n')).filter (fun s => s ≠ ""))

/-- The selector `header, footer, div[class]:not(.fragment)` used by
`getBlockResources` (aem.js line 325): `div[class]` requires the `class`
attribute to be present (possibly empty), `.fragment` tests class-list
membership. -/
def matchesBlockSelector (r : NodeRec) : Bool :=
  match r.kind with
  | .element t attrs =>
      t == "header" || t == "footer" ||
        (t == "div" && ((attrs.find? (fun p => p.1 == "class")).isSome
          && !((classListOf r).contains "fragment")))
  | .text _ => false

/-- `transformToCustomElement` (aem.js lines 302-318): derive the tag name as
`aem-` + (`class` attribute when non-empty, else the lower-cased tag name),
create that element, copy the block's markup into it, replace the block with
it in its parent, and mark every element child of the new element with
`slot="item"`.  Returns the new state and the custom element's id. -/
def transformToCustomElement (st : DomState) (blockId : Nat) : DomState × Nat :=
  match getNode st blockId with
  | none => (st, blockId)
  | some r =>
    let tagName := "aem-" ++ (match getAttrOf r "class" with
      | some c => if c == "" then strToLower (tagKindOf r) else c
      | none => strToLower (tagKindOf r))
    -- document.createElement lower-cases the tag name in an HTML document
    let alloc := addNode st
      { kind := .element (strToLower tagName) [], parent := none, children := [] }
    let st1 := alloc.1
    let ceId := alloc.2
    -- customElement.innerHTML = block.innerHTML
    let copied := copyNodes (bigFuel st1) st1 (some ceId) r.children
    let st2 := match getNode copied.1 ceId with
      | some ce => setNode copied.1 ceId { ce with children := copied.2 }
      | none => copied.1
    -- block.parentNode.replaceChild(customElement, block)
    let st3 := replaceChild st2 blockId ceId
    -- each immediate element child of the new element becomes slot="item"
    let st4 := (elemChildren st3 ceId).foldl (fun s cid => setAttr s cid "slot" "item") st3
    (st4, ceId)

/-- JavaScript `Set.add` on a list representation: append when absent,
preserving insertion order. -/
def setInsert (l : List String) (x : String) : List String :=
  if l.contains x then l else l ++ [x]

/-- The accumulated result of a discovery scan: the mutated document plus the
`components` and `templates` sets (insertion-ordered, duplicate-free lists). -/
structure Discovery where
  dom : DomState
  components : List String
  templates : List String
deriving DecidableEq, Repr

/-- The tag name recorded for a fresh container: mark it `loading`, transform
it, and lower-case the custom element's tag (`customElement.tagName
.toLowerCase()`, aem.js line 334). -/
def discoveredTag (acc : Discovery) (id : Nat) : String :=
  let st1 := setAttr acc.dom id "data-status" "loading"
  let tr := transformToCustomElement st1 id
  match getNode tr.1 tr.2 with
  | some ce => strToLower (tagKindOf ce)
  | none => ""

/-- The document after processing a fresh container: mark it `loading`,
transform it, then mark the (now detached) original node `loaded`
(aem.js lines 331-343). -/
def discoveredDom (acc : Discovery) (id : Nat) : DomState :=
  let st1 := setAttr acc.dom id "data-status" "loading"
  let tr := transformToCustomElement st1 id
  setAttr tr.1 id "data-status" "loaded"

/-- The body of the `forEach` in `getBlockResources` (aem.js lines 326-344)
for one snapshotted container: skip when `data-status` is `loading` or
`loaded`; otherwise mark `loading`, transform, record the custom tag in
`components` (and, unless it ends with `-metadata`, in `templates`), and mark
the original node `loaded`.  The mark/transform pipeline is pure, so naming
its document and tag through `discoveredDom` / `discoveredTag` is the
JavaScript's single execution expressed twice. -/
def processBlock (acc : Discovery) (id : Nat) : Discovery :=
  match getNode acc.dom id with
  | none => acc
  | some r =>
    let status := getAttrOf r "data-status"
    if status == some "loading" || status == some "loaded" then acc
    else
      ⟨discoveredDom acc id,
       setInsert acc.components (discoveredTag acc id),
       if !(strEndsWith (discoveredTag acc id) "-metadata")
       then setInsert acc.templates (discoveredTag acc id)
       else acc.templates⟩

/-- `getBlockResources` (aem.js lines 320-347): snapshot the selector matches,
then process each container in document order. -/
def getBlockResources (st : DomState) : Discovery :=
  (queryAll st matchesBlockSelector).foldl processBlock ⟨st, [], []⟩

def tagIs (r : NodeRec) (t : String) : Bool := isElem r && tagKindOf r == t

/-- `document.querySelector(sel)` for a tag: first match in document order. -/
def findFirstTag (st : DomState) (t : String) : Option Nat :=
  (queryAll st (fun r => tagIs r t)).head?

/-- JavaScript `Map.prototype.set` on an insertion-ordered association list:
an existing key keeps its position and gets the new value, a new key is
appended. -/
def mapSet (m : List (String × String)) (k v : String) : List (String × String) :=
  if (m.find? (fun p => p.1 == k)).isSome
  then m.map (fun p => if p.1 == k then (k, v) else p)
  else m ++ [(k, v)]

/-- The values a constructed block holds: a key-to-markup mapping in mapped
mode, the item elements (by node id, in document order) in list mode. -/
inductive BlockValues where
  | mapped (m : List (String × String))
  | listed (l : List Nat)
deriving DecidableEq, Repr

/-- The observable outcome of the `Block` constructor: the (possibly mutated)
document, the extracted `values`, and the ids of the template-content clones
appended to the shadow root. -/
structure BlockResult where
  dom : DomState
  values : BlockValues
  shadow : List Nat
deriving DecidableEq, Repr

/-- The `slots.forEach` loop of the `Block` constructor (aem.js lines
449-461).  In mapped mode, `const [key, value] = element.children`
destructures the first two element children; with fewer than two element
children the subsequent `key.innerText` / `value.innerHTML` access throws a
`TypeError`, modelled by `Except.error` (the exception aborts the
constructor, so no constructed object - and no `values` - escapes). -/
def processItems (mapValues : Bool) :
    DomState → List (String × String) → List Nat → List Nat →
      Except Unit (DomState × List (String × String) × List Nat)
  | st, m, lst, [] => .ok (st, m, lst)
  | st, m, lst, id :: rest =>
    if mapValues then
      match elemChildren st id with
      | keyId :: valueId :: _ =>
        let k := innerTextOf st keyId
        let v := innerHTMLOf st valueId
        -- this.values.set(key.innerText, value.innerHTML)
        let m1 := mapSet m k v
        -- element.setAttribute('slot', key.innerText)
        let st1 := setAttr st id "slot" k
        -- element.innerHTML = value.innerHTML
        let st2 := setInnerHTMLFromNode st1 id valueId
        processItems mapValues st2 m1 lst rest
      | _ => .error ()
    else
      -- this.values.push(element)
      processItems mapValues st m (lst ++ [id]) rest

/-- `document.getElementById`. -/
def findById (st : DomState) (idStr : String) : Option Nat :=
  (queryAll st (fun r => getAttrOf r "id" == some idStr)).head?

/-- The `Block` constructor (aem.js lines 431-472) run on the element
`selfId` with `options.mapValues = mapValues`:
1. `this.values` starts as a `Map` or an array;
2. the shadow root receives a clone of the content of
   `document.getElementById(this.tagName.toLowerCase())`, when present;
3. each descendant with `slot="item"` is classified by the loop modelled in
   `processItems`.
The mutation observer is installed but not started; it performs no DOM work
at construction time. -/
def blockConstruct (st : DomState) (selfId : Nat) (mapValues : Bool) :
    Except Unit BlockResult :=
  match getNode st selfId with
  | none => .error ()
  | some r =>
    let idStr := strToLower (tagKindOf r)
    let shadowSetup := match findById st idStr with
      | some tId =>
        match getNode st tId with
        | some tr => copyNodes (bigFuel st) st none tr.children
        | none => (st, [])
      | none => (st, [])
    let st1 := shadowSetup.1
    -- this.querySelectorAll('[slot="item"]')
    let items := queryDesc st1 selfId (fun rec => getAttrOf rec "slot" == some "item")
    match processItems mapValues st1 [] [] items with
    | .error e => .error e
    | .ok (st2, m, lst) =>
        .ok ⟨st2, if mapValues then .mapped m else .listed lst, shadowSetup.2⟩

/-! ## Resource loaders -/

/-- The identifier `loadTemplate` derives from the template URL
`<base>/blocks/<name>/<name>.html`: last path segment, then the part before
the first dot (aem.js line 10).  JavaScript `split` on a one-character
separator keeps empty pieces, as `String.split` does. -/
def derivedTemplateId (codeBasePath blockName : String) : String :=
  let href := codeBasePath ++ "/blocks/" ++ blockName ++ "/" ++ blockName ++ ".html"
  (strSplit (((strSplit href (fun c => c == '/')).getLast?).getD "")
    (fun c => c == '.')).headD ""

/-- Is a `template` element with the given `id` attribute present in the
document (`document.querySelector('template[id=...]')`)? -/
def hasTemplateWithId (st : DomState) (idStr : String) : Bool :=
  !(queryAll st (fun r => tagIs r "template" && getAttrOf r "id" == some idStr)).isEmpty

/-- A pure subtree used to describe what the browser parses out of a fetched
template body (its first child after trimming). -/
inductive PTree where
  | elem (tag : String) (attrs : List (String × String)) (children : List PTree)
  | txt (s : String)

/-- Graft a pure subtree into the heap under `parent`. -/
def graft : Nat → DomState → Option Nat → PTree → DomState × Nat
  | 0, st, _, _ => (st, st.root)
  | fuel + 1, st, parent, t =>
    match t with
    | .txt s =>
      let alloc := addNode st { kind := .text s, parent := parent, children := [] }
      (alloc.1, alloc.2)
    | .elem tag attrs children =>
      let alloc := addNode st { kind := .element tag attrs, parent := parent, children := [] }
      let filled := children.foldl (fun (acc : DomState × List Nat) c =>
        let g := graft fuel acc.1 (some alloc.2) c
        (g.1, acc.2 ++ [g.2])) (alloc.1, [])
      (setNode filled.1 alloc.2
        { kind := .element tag attrs, parent := parent, children := filled.2 }, alloc.2)

/-- What the network returns for a template fetch: a transport failure, or a
response with a success flag and a body; reading the body can itself fail.
A successfully read body is represented already parsed: `none` models a body
whose trimmed text has no first child. -/
inductive TemplateFetch where
  | networkFailure
  | response (ok : Bool) (body : Except Unit (Option PTree))

/-- How the `loadTemplate` promise settles.  `hung` records that neither
`resolve` nor `reject` is ever called: the bare `fetch(...).then(...)` chain
has no rejection handler, so a transport error leaves the promise pending
forever. -/
inductive TemplateOutcome where
  | resolvedT
  | rejectedT
  | hung
deriving DecidableEq, Repr

/-- The outcome of one `loadTemplate` call: whether a network fetch was
issued, how the promise settles, and the resulting document. -/
structure LoadTemplateRun where
  fetched : Bool
  outcome : TemplateOutcome
  dom : DomState
deriving DecidableEq, Repr

/-- `loadTemplate` (aem.js lines 6-41): resolve immediately - without
fetching - when a `template` with the derived id already exists; otherwise
fetch, and on a success response parse the body, give its first child the
derived id and append it to `document.body` (resolving in a `finally`), on a
non-success response call `reject`. -/
def loadTemplate (st : DomState) (codeBasePath blockName : String)
    (fetch : TemplateFetch) : LoadTemplateRun :=
  let idStr := derivedTemplateId codeBasePath blockName
  if hasTemplateWithId st idStr then ⟨false, .resolvedT, st⟩
  else
    match fetch with
    | .networkFailure => ⟨true, .hung, st⟩
    | .response ok body =>
      if ok then
        match body with
        | .error _ => ⟨true, .resolvedT, st⟩
        | .ok none => ⟨true, .resolvedT, st⟩
        | .ok (some tree) =>
          let g := graft (bigFuel st) st none tree
          let st1 := setAttr g.1 g.2 "id" idStr
          -- document.body.append(html)
          match findFirstTag st1 "body" with
          | some bodyId => ⟨true, .resolvedT, appendChild st1 bodyId g.2⟩
          | none => ⟨true, .resolvedT, st1⟩
      else ⟨true, .rejectedT, st⟩

/-- Does `head > link[href=...]` match, for the first `head` element? -/
def hasHeadLink (st : DomState) (href : String) : Bool :=
  match findFirstTag st "head" with
  | some headId =>
    !((elemChildren st headId).filter (fun i =>
      match getNode st i with
      | some r => tagIs r "link" && getAttrOf r "href" == some href
      | none => false)).isEmpty
  | none => false

inductive CSSOutcome where
  | resolvedC
  | rejectedC
deriving DecidableEq, Repr

structure LoadCSSRun where
  linkAppended : Bool
  outcome : CSSOutcome
  dom : DomState
deriving DecidableEq, Repr

/-- `loadCSS` (aem.js lines 73-86): when a `link` with the same `href` is
already in the head, resolve immediately without creating an element;
otherwise append a stylesheet link whose load event resolves and whose error
event rejects (`loadEvent` tells which one fires). -/
def loadCSS (st : DomState) (href : String) (loadEvent : Bool) : LoadCSSRun :=
  if hasHeadLink st href then ⟨false, .resolvedC, st⟩
  else
    match findFirstTag st "head" with
    | some headId =>
      let alloc := addNode st
        { kind := .element "link" [("rel", "stylesheet"), ("href", href)]
        , parent := none, children := [] }
      ⟨true, if loadEvent then .resolvedC else .rejectedC,
        appendChild alloc.1 headId alloc.2⟩
    | none => ⟨true, if loadEvent then .resolvedC else .rejectedC, st⟩

/-! ## Code module loading (`loadBlock`) -/

/-- What the dynamic `import(href)` does: deliver a module (which may or may
not have a default export, the export being an abstract class handle), or
reject. -/
inductive ImportOutcome where
  | success (defaultExport : Option Nat)
  | failure
deriving DecidableEq, Repr

/-- The calls the promise executor of `loadBlock` performs, in order. -/
inductive ExecutorCall where
  | callResolve (name : String) (className : Nat)
  | callReject
  | warnLog
deriving DecidableEq, Repr

/-- `loadBlock` (aem.js lines 48-67), at the level of the calls its executor
makes: when the import resolves and `mod.default` is truthy, `resolve({name,
className})`; when the import rejects, warn then `reject`; when the import
resolves without a default export, the `then` branch falls through without
calling anything. -/
def loadBlockCalls (blockName : String) : ImportOutcome → List ExecutorCall
  | .success (some cls) => [.callResolve blockName cls]
  | .success none => []
  | .failure => [.warnLog, .callReject]

/-- How a promise settles given its executor's calls: the first `resolve` or
`reject` wins; with neither, the promise stays pending forever. -/
inductive PromiseState where
  | resolvedWith (name : String) (className : Nat)
  | rejectedP
  | pendingP
deriving DecidableEq, Repr

def settleCalls : List ExecutorCall → PromiseState
  | [] => .pendingP
  | .callResolve n c :: _ => .resolvedWith n c
  | .callReject :: _ => .rejectedP
  | .warnLog :: rest => settleCalls rest

/-- The promise returned by `loadBlock`. -/
def loadBlock (blockName : String) (imp : ImportOutcome) : PromiseState :=
  settleCalls (loadBlockCalls blockName imp)

/-! ## The tail of `initialize` (aem.js lines 390-406) -/

/-- How an individual promise inside a `Promise.allSettled` batch settles. -/
inductive SettledOutcome where
  | fulfilled
  | rejectedS
  | neverSettles
deriving DecidableEq, Repr

def blockSettled : PromiseState → SettledOutcome
  | .resolvedWith _ _ => .fulfilled
  | .rejectedP => .rejectedS
  | .pendingP => .neverSettles

/-- The observable milestones of the post-discovery part of `initialize`. -/
inductive InitEvent where
  | bothBatchesSettled
  | register (name : String)
  | bodyLoadedSignal
deriving DecidableEq, Repr

/-- The tail of `initialize` after discovery (aem.js lines 390-406),
linearised into an event trace.  The code awaits
`Promise.allSettled([allSettled(templates.map(loadTemplate)),
allSettled(components.map(loadBlock))])`, so execution resumes - producing
`bothBatchesSettled` - only when every promise of both batches has settled;
if any of them never settles the whole function stays suspended forever
(`none`).  It then walks the code-batch results in order, registering each
fulfilled kind that is not already defined, and finally marks the body
loaded.  The registration `forEach` callback is declared `async` but its body
contains no `await`, so each registration completes synchronously during the
walk, before the body is marked. -/
def initializeTail (components : List String) (imp : String → ImportOutcome)
    (templateBatch : List SettledOutcome) (alreadyDefined : String → Bool) :
    Option (List InitEvent) :=
  let blockStates := components.map (fun c => loadBlock c (imp c))
  if templateBatch.contains .neverSettles
      || (blockStates.map blockSettled).contains .neverSettles
  then none
  else some
    (.bothBatchesSettled ::
      (components.filterMap (fun c =>
        match loadBlock c (imp c) with
        | .resolvedWith n _ => if alreadyDefined n then none else some (.register n)
        | _ => none))
      ++ [.bodyLoadedSignal])

/-! ## Telemetry (`sampleRUM`, aem.js lines 152-263) -/

/-- A JSON atom as it appears in the beacon body. -/
inductive JVal where
  | num (n : Int)
  | str (s : String)
deriving DecidableEq, Repr

/-- The whitelist `knownProperties` (aem.js lines 208-221) passed as the
replacer array of `JSON.stringify`. -/
def knownProperties : List String :=
  ["weight", "id", "referer", "checkpoint", "t", "source", "target",
   "cwv", "CLS", "FID", "LCP", "INP"]

/-- JavaScript property assignment on an insertion-ordered object: an
existing key keeps its position, a new key is appended. -/
def objSet (o : List (String × JVal)) (k : String) (v : JVal) : List (String × JVal) :=
  if (o.find? (fun p => p.1 == k)).isSome
  then o.map (fun p => if p.1 == k then (k, v) else p)
  else o ++ [(k, v)]

/-- Object spread: `{ ...base fields..., ...data }`. -/
def objMerge (base data : List (String × JVal)) : List (String × JVal) :=
  data.foldl (fun o p => objSet o p.1 p.2) base

/-- `JSON.stringify(obj, knownProperties)`: with an array replacer the
serialised object contains exactly the whitelisted keys that are present on
the object, in whitelist order; everything else is dropped. -/
def stringifyFields (o : List (String × JVal)) : List (String × JVal) :=
  knownProperties.filterMap (fun k =>
    (o.find? (fun p => p.1 == k)).map (fun p => (k, p.2)))

/-- The externally visible actions of one `sampleRUM` call. -/
inductive RumEvent where
  | beacon (url : String) (bodyFields : List (String × JVal))
  | debugLog (checkpoint : String)
  | deferPush (fnname : String)
  | scriptAppend (src : String)
deriving DecidableEq, Repr

def isBeacon : RumEvent → Bool
  | .beacon _ _ => true
  | _ => false

/-- The sampling weight: 1 when the URL carries `rum=on`, else 100
(aem.js line 180). -/
def rumWeight (rumOn : Bool) : Nat := if rumOn then 1 else 100

/-- `isSelected = random * weight < 1` (aem.js line 188), for the page's
random draw `random ∈ [0, 1)`. -/
def rumIsSelected (random : ℚ) (weight : Nat) : Bool :=
  decide (random * weight < 1)

/-- The checkpoint-specific handlers installed into `sampleRUM.cases`
(aem.js lines 241-251) on a freshly initialised page: `cwv` calls the
deferred stub `sampleRUM.cwv`, which only queues the call; `lazy` appends the
enhancer script.  Neither sends a beacon. -/
def caseEvents (checkpoint : String) : List RumEvent :=
  if checkpoint == "cwv" then [.deferPush "cwv"]
  else if checkpoint == "lazy" then
    [.scriptAppend "https://rum.hlx.page/.rum/@adobe/helix-rum-enhancer@^1/src/index.js"]
  else []

/-- One `sampleRUM(checkpoint, data)` call on a freshly initialised RUM
session (no `always` handlers registered yet), with the session's weight
derived from the `rum=on` query parameter and its random draw given: when the
session is selected, `sendPing` serialises `{weight, id, referer, checkpoint,
t, ...data}` through the `knownProperties` replacer and sends exactly one
beacon, logs the ping, and then runs the checkpoint's case handler if one
exists. -/
def pingBase (weight : Nat) (idStr referer checkpoint : String)
    (tElapsed : Int) : List (String × JVal) :=
  [("weight", .num weight), ("id", .str idStr), ("referer", .str referer),
   ("checkpoint", .str checkpoint), ("t", .num tElapsed)]

/-- The serialised beacon body of `sendPing` (aem.js lines 222-234):
`JSON.stringify({weight, id, referer, checkpoint, t, ...data},
knownProperties)`. -/
def pingBody (weight : Nat) (idStr referer checkpoint : String)
    (tElapsed : Int) (data : List (String × JVal)) : List (String × JVal) :=
  stringifyFields (objMerge (pingBase weight idStr referer checkpoint tElapsed) data)

def sampleRUM (rumOn : Bool) (random : ℚ) (idStr referer : String)
    (tElapsed : Int) (checkpoint : String) (data : List (String × JVal)) :
    List RumEvent :=
  let weight := rumWeight rumOn
  if rumIsSelected random weight then
    [.beacon ("https://rum.hlx.page/.rum/" ++ toString weight)
        (pingBody weight idStr referer checkpoint tElapsed data),
     .debugLog checkpoint]
      ++ caseEvents checkpoint
  else []

/-! ## Fragment preloading (`preloadFragment`, aem.js lines 349-368) -/

/-- What the fragment fetch delivers: a transport failure, or a response with
a success flag whose body text can be read or can itself fail. -/
inductive FragmentFetch where
  | networkFailure
  | response (ok : Bool) (body : Except Unit String)

/-- The observable outcome of `preloadFragment` on a placeholder whose nested
slot element exists: the slot's content afterwards, whether `console.warn` /
`console.error` fired, and whether the async function's promise resolved. -/
structure PreloadRun where
  slotContent : String
  warned : Bool
  errorLogged : Bool
  resolvedOutward : Bool
deriving DecidableEq, Repr

/-- `preloadFragment` (aem.js lines 349-368) for a placeholder whose
`div > div` slot exists and currently holds `slotContent`.  The whole body is
inside `try/catch`, so the promise always resolves.  On a response the code
warns when `!res.ok` and then - unconditionally - runs
`slot.innerHTML = await res.text()`; only a thrown error (transport failure,
or a body-read failure) reaches the `catch` and leaves the slot untouched. -/
def preloadFragment (slotContent : String) : FragmentFetch → PreloadRun
  | .networkFailure => ⟨slotContent, false, true, true⟩
  | .response ok body =>
    match body with
    | .ok t => ⟨t, !ok, false, true⟩
    | .error _ => ⟨slotContent, !ok, true, true⟩

/-! ## Concrete documents used for evaluation -/

/-- A page whose single block (`div.foo`) contains a nested classed container
(`div.bar`): the shape on which rescanning discovery is not a no-op. -/
def docNested : DomState :=
  { nodes :=
      [ (0, ⟨.element "body" [], none, [1]⟩)
      , (1, ⟨.element "div" [("class", "foo")], some 0, [2]⟩)
      , (2, ⟨.element "div" [("class", "bar")], some 1, [3]⟩)
      , (3, ⟨.text "x", some 2, []⟩) ]
  , nextId := 4
  , root := 0 }

/-- A page with an ordinary block and a metadata block. -/
def docMeta : DomState :=
  { nodes :=
      [ (0, ⟨.element "body" [], none, [1, 2]⟩)
      , (1, ⟨.element "div" [("class", "cards")], some 0, []⟩)
      , (2, ⟨.element "div" [("class", "section-metadata")], some 0, []⟩) ]
  , nextId := 3
  , root := 0 }

/-- A page whose only container is already marked `loaded`. -/
def docLoaded : DomState :=
  { nodes :=
      [ (0, ⟨.element "body" [], none, [1]⟩)
      , (1, ⟨.element "div" [("class", "foo"), ("data-status", "loaded")], some 0, []⟩) ]
  , nextId := 2
  , root := 0 }

/-- A mapped-mode component with a malformed item: a single element child,
so no label/value pair can be destructured. -/
def docMalformed : DomState :=
  { nodes :=
      [ (0, ⟨.element "body" [], none, [1]⟩)
      , (1, ⟨.element "aem-z" [], some 0, [2]⟩)
      , (2, ⟨.element "div" [("slot", "item")], some 1, [3]⟩)
      , (3, ⟨.element "div" [], some 2, [4]⟩)
      , (4, ⟨.text "k", some 3, []⟩) ]
  , nextId := 5
  , root := 0 }

/-- A document that already holds a cached template for the block `cards`
and a stylesheet link for `/styles/x.css` in its head. -/
def docCached : DomState :=
  { nodes :=
      [ (0, ⟨.element "html" [], none, [1, 3]⟩)
      , (1, ⟨.element "head" [], some 0, [2]⟩)
      , (2, ⟨.element "link" [("rel", "stylesheet"), ("href", "/styles/x.css")], some 1, []⟩)
      , (3, ⟨.element "body" [], some 0, [4]⟩)
      , (4, ⟨.element "template" [("id", "cards")], some 3, []⟩) ]
  , nextId := 5
  , root := 0 }

/-! ## Helper lemmas -/

theorem setInsert_mem (l : List String) (y x : String) :
    x ∈ setInsert l y ↔ x = y ∨ x ∈ l := by
  unfold setInsert
  cases h : l.contains y with
  | true =>
    have hy : y ∈ l := by
      have : l.elem y = true := h
      exact List.elem_iff.1 this
    simp only [h, if_true]
    constructor
    · exact Or.inr
    · rintro (rfl | hx)
      · exact hy
      · exact hx
  | false =>
    simp only [h, Bool.false_eq_true, if_false, List.mem_append,
      List.mem_singleton]
    tauto

/-- Each container-processing step of discovery either leaves the accumulator
untouched, or records exactly one tag in `components` and - unless the tag
has the metadata suffix - in `templates`. -/
theorem processBlock_shape (acc : Discovery) (id : Nat) :
    processBlock acc id = acc ∨
    ∃ tag dom, processBlock acc id =
      ⟨dom, setInsert acc.components tag,
        if !(strEndsWith tag "-metadata") then setInsert acc.templates tag
        else acc.templates⟩ := by
  cases h : getNode acc.dom id with
  | none => exact Or.inl (by simp [processBlock, h])
  | some r =>
    cases hs : (getAttrOf r "data-status" == some "loading"
        || getAttrOf r "data-status" == some "loaded") with
    | true => exact Or.inl (by simp only [processBlock, h, hs, if_true])
    | false =>
      exact Or.inr ⟨discoveredTag acc id, discoveredDom acc id,
        by simp only [processBlock, h, hs, Bool.false_eq_true, if_false]⟩

/-- The invariant tying the two discovery sets together. -/
def TemplatesInv (c t : List String) : Prop :=
  ∀ x, x ∈ t ↔ (x ∈ c ∧ strEndsWith x "-metadata" = false)

theorem TemplatesInv_step (acc : Discovery) (id : Nat)
    (h : TemplatesInv acc.components acc.templates) :
    TemplatesInv (processBlock acc id).components (processBlock acc id).templates := by
  rcases processBlock_shape acc id with he | ⟨tag, dom, he⟩
  · rw [he]; exact h
  · rw [he]
    intro x
    by_cases hs : strEndsWith tag "-metadata" = false
    · simp only [hs, Bool.not_false, if_true, setInsert_mem]
      constructor
      · rintro (rfl | hx)
        · exact ⟨Or.inl rfl, hs⟩
        · rcases (h x).1 hx with ⟨hc, hm⟩
          exact ⟨Or.inr hc, hm⟩
      · rintro ⟨rfl | hc, hm⟩
        · exact Or.inl rfl
        · exact Or.inr ((h x).2 ⟨hc, hm⟩)
    · have hs' : strEndsWith tag "-metadata" = true := by
        cases hv : strEndsWith tag "-metadata" with
        | false => exact absurd hv hs
        | true => rfl
      simp only [hs', Bool.not_true, if_false, setInsert_mem]
      constructor
      · intro hx
        rcases (h x).1 hx with ⟨hc, hm⟩
        exact ⟨Or.inr hc, hm⟩
      · rintro ⟨rfl | hc, hm⟩
        · rw [hs'] at hm; cases hm
        · exact (h x).2 ⟨hc, hm⟩

theorem TemplatesInv_foldl (ids : List Nat) (acc : Discovery)
    (h : TemplatesInv acc.components acc.templates) :
    TemplatesInv (ids.foldl processBlock acc).components
      (ids.foldl processBlock acc).templates := by
  induction ids generalizing acc with
  | nil => exact h
  | cons i rest ih => exact ih _ (TemplatesInv_step acc i h)

theorem keys_objSet (o : List (String × JVal)) (k' : String) (v : JVal) :
    (objSet o k' v).map Prod.fst = o.map Prod.fst ∨
    (objSet o k' v).map Prod.fst = o.map Prod.fst ++ [k'] := by
  unfold objSet
  cases h : (o.find? (fun p => p.1 == k')).isSome with
  | true =>
    simp only [if_true]
    left
    rw [List.map_map]
    apply List.map_congr_left
    intro p _
    simp only [Function.comp]
    cases hp : p.1 == k' with
    | true =>
      simp only [hp, if_true]
      exact (beq_iff_eq.1 hp).symm
    | false =>
      simp only [hp, Bool.false_eq_true, if_false]
  | false =>
    simp only [Bool.false_eq_true, if_false, List.map_append]
    right
    rfl

theorem mem_keys_objSet (o : List (String × JVal)) (k' : String) (v : JVal)
    (k : String) (h : k ∈ o.map Prod.fst) :
    k ∈ (objSet o k' v).map Prod.fst := by
  rcases keys_objSet o k' v with he | he
  · rw [he]; exact h
  · rw [he]; exact List.mem_append_left _ h

theorem mem_keys_objMerge (data base : List (String × JVal)) (k : String)
    (h : k ∈ base.map Prod.fst) :
    k ∈ (objMerge base data).map Prod.fst := by
  induction data generalizing base with
  | nil => exact h
  | cons p tl ih => exact ih _ (mem_keys_objSet base p.1 p.2 k h)

theorem find?_isSome_of_mem_keys (o : List (String × JVal)) (k : String)
    (h : k ∈ o.map Prod.fst) :
    (o.find? (fun p => p.1 == k)).isSome = true := by
  induction o with
  | nil => simp at h
  | cons p tl ih =>
    cases hp : p.1 == k with
    | true => simp [List.find?, hp]
    | false =>
      have h' : k ∈ tl.map Prod.fst := by
        rcases List.mem_map.1 h with ⟨q, hq, hfst⟩
        rcases List.mem_cons.1 hq with rfl | hq2
        · rw [beq_iff_eq.2 hfst] at hp
          cases hp
        · exact List.mem_map.2 ⟨q, hq2, hfst⟩
      have hstep : List.find? (fun p => p.1 == k) (p :: tl) =
          List.find? (fun p => p.1 == k) tl := by
        simp [List.find?, hp]
      rw [hstep]
      exact ih h'

theorem mem_keys_stringify (o : List (String × JVal)) (k : String)
    (hk : k ∈ knownProperties)
    (h : (o.find? (fun p => p.1 == k)).isSome = true) :
    k ∈ (stringifyFields o).map Prod.fst := by
  rcases Option.isSome_iff_exists.1 h with ⟨p, hp⟩
  refine List.mem_map.2 ⟨(k, p.2), ?_, rfl⟩
  refine List.mem_filterMap.2 ⟨k, hk, ?_⟩
  rw [hp]
  rfl

theorem stringify_keys_sub (o : List (String × JVal)) (x : String)
    (h : x ∈ (stringifyFields o).map Prod.fst) : x ∈ knownProperties := by
  rcases List.mem_map.1 h with ⟨pr, hpr, hfst⟩
  rcases List.mem_filterMap.1 hpr with ⟨a, ha, hfa⟩
  rcases Option.map_eq_some'.1 hfa with ⟨q, _, hq⟩
  rw [← hfst, ← hq]
  exact ha

theorem caseEvents_no_beacon (cp : String) :
    (caseEvents cp).filter isBeacon = [] := by
  unfold caseEvents
  cases h1 : cp == "cwv" with
  | true => rfl
  | false =>
    cases h2 : cp == "lazy" with
    | true => simp [h1, h2, isBeacon]
    | false => simp [h1, h2]

/-! ## Claim theorems -/

/-- C1.  The claim states that on a non-success response `preloadFragment`
leaves the slot's existing content unchanged.  The code (aem.js lines
355-363) warns on `!res.ok` but then unconditionally runs `slot.innerHTML =
await res.text()`, so a 404 replaces the slot's content with the error body;
only a thrown fetch/read error leaves the content in place.  This theorem
records the code's actual behaviour at the claim's failing input: the
warning fires and the promise resolves, but the original content is gone. -/
theorem preloadFragment_failure_behavior :
    preloadFragment "original" (.response false (.ok "<pre>404 body</pre>")) =
      ⟨"<pre>404 body</pre>", true, false, true⟩ ∧
    preloadFragment "original" .networkFailure = ⟨"original", false, true, true⟩ ∧
    ("<pre>404 body</pre>" : String) ≠ "original" := by
  refine ⟨rfl, rfl, by decide⟩

/-- C2, counterexample.  When the dynamic import succeeds but the module has
no default export, `loadBlock`'s executor calls neither `resolve` nor
`reject` and logs nothing (aem.js lines 52-60): the promise stays pending,
it does not reject as the claim states. -/
theorem loadBlock_missing_default_cex :
    loadBlock "aem-cards" (.success none) = .pendingP ∧
    loadBlockCalls "aem-cards" (.success none) = [] ∧
    PromiseState.pendingP ≠ PromiseState.rejectedP := by
  refine ⟨rfl, rfl, by decide⟩

/-- C2, amended.  `loadBlock` resolves with the kind's name and behaviour
class when the imported module has a default export; when the dynamic import
itself rejects it logs a warning and rejects; when the module loads without a
default export the promise never settles (neither resolves nor rejects). -/
theorem loadBlock_amended (name : String) (cls : Nat) :
    loadBlock name (.success (some cls)) = .resolvedWith name cls ∧
    loadBlock name (.success none) = .pendingP ∧
    loadBlock name .failure = .rejectedP ∧
    ExecutorCall.warnLog ∈ loadBlockCalls name .failure := by
  refine ⟨rfl, rfl, rfl, ?_⟩
  simp [loadBlockCalls]

/-- C5.  In mapped mode, reaching an item with fewer than two element
children always aborts the loop with an error (universally), and on a
concrete malformed component the whole construction therefore raises instead
of recording a partial mapping. -/
theorem blockConstruct_malformed :
    (∀ (st : DomState) (m : List (String × String)) (lst : List Nat)
      (id : Nat) (rest : List Nat),
      (elemChildren st id).length < 2 →
      processItems true st m lst (id :: rest) = .error ()) ∧
    (elemChildren docMalformed 2).length = 1 ∧
    blockConstruct docMalformed 1 true = .error () := by
  refine ⟨?_, rfl, rfl⟩
  intro st m lst id rest hlen
  cases hc : elemChildren st id with
  | nil => simp [processItems, hc]
  | cons x tl =>
    cases tl with
    | nil => simp [processItems, hc]
    | cons y tl2 =>
      rw [hc] at hlen
      simp at hlen
      omega

/-- Witness for the universal half of C5 at the malformed component's item
list. -/
theorem blockConstruct_malformed_witness :
    processItems true docMalformed [] [] [2] = .error () :=
  blockConstruct_malformed.1 docMalformed [] [] 2 [] (by decide)

/-- C3, counterexample.  On a page whose block contains a nested classed
`div`, running discovery a second time is not a no-op: the first run's
`innerHTML` copy re-created the nested container inside the upgraded element
without a `data-status` marker, so the second run transforms it (the document
changes again) and returns `aem-bar`, an entry the first run's component set
already contains. -/
theorem discovery_rescan_cex :
    "aem-bar" ∈ (getBlockResources docNested).components ∧
    (getBlockResources (getBlockResources docNested).dom).components = ["aem-bar"] ∧
    (getBlockResources (getBlockResources docNested).dom).dom ≠
      (getBlockResources docNested).dom := by
  refine ⟨by decide, by decide, by decide⟩

/-- C3, amended.  Any container node whose `data-status` is `loading` or
`loaded` is skipped by the discovery step (no re-transform, no additions to
either kind set), and a freshly processed container is transformed and ends
the scan marked `loaded` - so each container node is transformed at most
once.  A second discovery run over the mutated document, however, may
transform fresh selector-matching copies created inside upgraded elements by
the `innerHTML` copy (see the counterexample), so rescans are not in general
no-ops. -/
theorem discovery_amended :
    (∀ (acc : Discovery) (id : Nat) (r : NodeRec),
      getNode acc.dom id = some r →
      (getAttrOf r "data-status" = some "loading" ∨
        getAttrOf r "data-status" = some "loaded") →
      processBlock acc id = acc) ∧
    (attrAt (getBlockResources docNested).dom 1 "data-status" = some "loaded" ∧
     attrAt (getBlockResources docNested).dom 2 "data-status" = some "loaded") := by
  constructor
  · intro acc id r h hs
    have hb : (getAttrOf r "data-status" == some "loading"
        || getAttrOf r "data-status" == some "loaded") = true := by
      rcases hs with hs | hs <;> rw [hs] <;> simp
    simp only [processBlock, h, hb, if_true]
  · exact ⟨by decide, by decide⟩

/-- Witness for the skip half of the amended C3 at a concrete document whose
only container is already `loaded`. -/
theorem discovery_amended_witness :
    processBlock ⟨docLoaded, [], []⟩ 1 = ⟨docLoaded, [], []⟩ :=
  discovery_amended.1 ⟨docLoaded, [], []⟩ 1
    ⟨.element "div" [("class", "foo"), ("data-status", "loaded")], some 0, []⟩
    (by decide) (Or.inr (by decide))

/-- C9.  Cached resources resolve immediately without touching the network:
`loadTemplate` resolves without fetching when a `template` with the derived
identifier is already in the document, and `loadCSS` resolves without
creating a link when a `head > link` with the same `href` already exists; in
both cases the document is left unchanged. -/
theorem cached_resource_loads :
    (∀ (st : DomState) (base name : String) (f : TemplateFetch),
      hasTemplateWithId st (derivedTemplateId base name) = true →
      loadTemplate st base name f = ⟨false, .resolvedT, st⟩) ∧
    (∀ (st : DomState) (href : String) (ev : Bool),
      hasHeadLink st href = true →
      loadCSS st href ev = ⟨false, .resolvedC, st⟩) := by
  constructor
  · intro st base name f h
    simp only [loadTemplate, h, if_true]
  · intro st href ev h
    simp only [loadCSS, h, if_true]

/-- Witness for C9 on a concrete document holding a cached `cards` template
and a cached stylesheet link. -/
theorem cached_resource_loads_witness :
    loadTemplate docCached "" "cards" .networkFailure =
      ⟨false, .resolvedT, docCached⟩ ∧
    loadCSS docCached "/styles/x.css" false = ⟨false, .resolvedC, docCached⟩ :=
  ⟨cached_resource_loads.1 docCached "" "cards" .networkFailure (by decide),
   cached_resource_loads.2 docCached "/styles/x.css" false (by decide)⟩

/-- C10.  For every document, the two sets returned by `getBlockResources`
satisfy `templates ⊆ components`, and `templates` is exactly the subset of
`components` whose tag does not end with `-metadata`. -/
theorem getBlockResources_templates_subset (st : DomState) :
    (∀ x ∈ (getBlockResources st).templates, x ∈ (getBlockResources st).components) ∧
    (∀ x, x ∈ (getBlockResources st).templates ↔
      (x ∈ (getBlockResources st).components ∧
        strEndsWith x "-metadata" = false)) := by
  have hinv : TemplatesInv (getBlockResources st).components
      (getBlockResources st).templates := by
    unfold getBlockResources
    exact TemplatesInv_foldl _ ⟨st, [], []⟩ (by intro x; simp)
  exact ⟨fun x hx => ((hinv x).1 hx).1, hinv⟩

/-- Witness for C10 on a page holding an ordinary block and a metadata
block: the ordinary kind is in `templates`, and via the theorem the metadata
kind cannot be. -/
theorem getBlockResources_templates_subset_witness :
    "aem-cards" ∈ (getBlockResources docMeta).templates ∧
    "aem-section-metadata" ∉ (getBlockResources docMeta).templates :=
  ⟨((getBlockResources_templates_subset docMeta).2 "aem-cards").2
      ⟨by decide, by decide⟩,
   fun h => by
    have := ((getBlockResources_templates_subset docMeta).2 "aem-section-metadata").1 h
    exact absurd this.2 (by decide)⟩

/-- C7.  With two requested code modules of which one rejects and the other
fulfills, the tail of `initialize` produces exactly the trace in which both
fetch batches settle first, then the fulfilled kind - and only it - is
registered, and the body-loaded completion signal comes last. -/
theorem initialize_code_failure_isolation (a b : String)
    (imp : String → ImportOutcome) (cls : Nat)
    (templateBatch : List SettledOutcome) (alreadyDefined : String → Bool)
    (ha : imp a = .failure) (hb : imp b = .success (some cls))
    (htb : templateBatch.contains SettledOutcome.neverSettles = false)
    (hdef : alreadyDefined b = false) :
    initializeTail [a, b] imp templateBatch alreadyDefined =
      some [.bothBatchesSettled, .register b, .bodyLoadedSignal] := by
  have htb' : SettledOutcome.neverSettles ∉ templateBatch := by
    simpa using htb
  simp [initializeTail, ha, hb, htb', hdef, loadBlock, loadBlockCalls,
    settleCalls, blockSettled]

/-- Witness for C7: a failing `aem-cards` module does not prevent the
fulfilled `aem-hero` kind from being registered before the completion
signal. -/
theorem initialize_code_failure_isolation_witness :
    initializeTail ["aem-cards", "aem-hero"]
      (fun s => if s == "aem-hero" then .success (some 1) else .failure)
      [.fulfilled] (fun _ => false) =
      some [.bothBatchesSettled, .register "aem-hero", .bodyLoadedSignal] :=
  initialize_code_failure_isolation "aem-cards" "aem-hero" _ 1 _ _
    (by decide) (by decide) (by decide) rfl

/-- C8.  With the sampling weight forced to 1 by the `rum=on` query
parameter (so that the inclusion test `random * weight < 1` always holds for
`random ∈ [0,1)`), one `sampleRUM` call sends exactly one beacon; its body is
the whitelist serialisation `pingBody`, which contains `checkpoint`,
`weight` and `id`, contains no key outside `knownProperties`, and in
particular drops every caller-supplied field whose name is not
whitelisted. -/
theorem sampleRUM_forced_sampling (random : ℚ) (idStr referer : String)
    (tElapsed : Int) (checkpoint : String) (data : List (String × JVal))
    (h1 : random < 1) :
    ((sampleRUM true random idStr referer tElapsed checkpoint data).filter
        isBeacon).length = 1 ∧
    RumEvent.beacon ("https://rum.hlx.page/.rum/" ++ toString (rumWeight true))
        (pingBody (rumWeight true) idStr referer checkpoint tElapsed data)
      ∈ sampleRUM true random idStr referer tElapsed checkpoint data ∧
    "checkpoint" ∈ (pingBody (rumWeight true) idStr referer checkpoint
        tElapsed data).map Prod.fst ∧
    "weight" ∈ (pingBody (rumWeight true) idStr referer checkpoint
        tElapsed data).map Prod.fst ∧
    "id" ∈ (pingBody (rumWeight true) idStr referer checkpoint
        tElapsed data).map Prod.fst ∧
    (∀ k ∈ (pingBody (rumWeight true) idStr referer checkpoint
        tElapsed data).map Prod.fst, k ∈ knownProperties) ∧
    (∀ k, k ∉ knownProperties →
      k ∉ (pingBody (rumWeight true) idStr referer checkpoint
        tElapsed data).map Prod.fst) := by
  have hsel : rumIsSelected random (rumWeight true) = true := by
    simpa [rumIsSelected, rumWeight] using h1
  have hbase : ∀ k ∈ ["weight", "id", "referer", "checkpoint", "t"],
      k ∈ (pingBody (rumWeight true) idStr referer checkpoint
        tElapsed data).map Prod.fst := by
    intro k hk
    apply mem_keys_stringify
    · fin_cases hk <;> simp [knownProperties]
    · apply find?_isSome_of_mem_keys
      apply mem_keys_objMerge
      fin_cases hk <;> simp [pingBase]
  refine ⟨?_, ?_, ?_, ?_, ?_, ?_, ?_⟩
  · simp [sampleRUM, hsel, isBeacon, caseEvents_no_beacon]
  · simp only [sampleRUM, hsel, if_true]
    exact List.mem_append_left _ (List.mem_cons_self _ _)
  · exact hbase "checkpoint" (by simp)
  · exact hbase "weight" (by simp)
  · exact hbase "id" (by simp)
  · intro k hk
    exact stringify_keys_sub _ k hk
  · intro k hk hmem
    exact hk (stringify_keys_sub _ k hmem)

/-- Witness for C8 at a concrete random draw and a caller payload carrying a
non-whitelisted field. -/
theorem sampleRUM_forced_sampling_witness :
    ((sampleRUM true (1 / 2 : ℚ) "u17" "https://x/p" 42 "top"
        [("custom", .str "x")]).filter isBeacon).length = 1 ∧
    "custom" ∉ (pingBody (rumWeight true) "u17" "https://x/p" "top" 42
        [("custom", .str "x")]).map Prod.fst := by
  have h := sampleRUM_forced_sampling (1 / 2 : ℚ) "u17" "https://x/p" 42 "top"
    [("custom", .str "x")] (by norm_num)
  exact ⟨h.1, h.2.2.2.2.2.2 "custom" (by decide)⟩

end AemWc
